import Mathlib

/-!
Shallow embedding of the helm-chart dependency resolver of
`src/python/k8s.py` (class `Chart`): `find_one_source`,
`update_dependencies`, `resolve_subcharts`, `clean_dependencies`,
`match_to_dependencies`, together with theorems checking the
natural-language specification against this embedding.

Modelling conventions:
- a chart directory is a `CTree`: the parsed `Chart.yaml` manifest plus the
  `charts/` subdirectory, which either does not exist (`Charts.missing`) or
  holds a list of entries (subdirectories, `.tgz` archives, plain files);
- the external `helm dependency update` fetcher is an oracle function
  returning the archives (name and content) it would write;
- fatal failures (the `NotImplementedError` raised on an ambiguous source,
  a `FileNotFoundError` from iterating a missing `charts/` directory) are
  `Except.error` values;
- the unbounded recursion `src.update_dependencies(...)` is made total with
  a fuel parameter; running out of fuel is the distinct error `outOfFuel`.
-/

/-- Models Python `s.startswith(p)`: `p` is a prefix of `s`, on code
points. Defined on the character lists so that it computes by `rfl` and
`decide`. -/
def str_startswith (s p : String) : Bool := p.data.isPrefixOf s.data

/-- Models Python `s.endswith(p)`: `p` is a suffix of `s`, on code
points. -/
def str_endswith (s p : String) : Bool := p.data.isSuffixOf s.data

/-- Models the Python slice `s[:-n]`: drop the last `n` characters. -/
def str_dropright (s : String) (n : Nat) : String :=
  ⟨s.data.take (s.data.length - n)⟩

/-- One entry of the `dependencies` list of a `Chart.yaml` manifest; the
fields beyond `name`/`version` are opaque passthrough and not modelled. -/
structure Dep where
  name : String
  version : String
deriving DecidableEq, Repr

/-- Models `Chart.compute_name`: the fully qualified `name-version` string. -/
def compute_name (name version : String) : String := name ++ "-" ++ version

/-- The parsed `Chart.yaml`: `name`, `version` and the dependency list. -/
structure Manifest where
  name : String
  version : String
  dependencies : List Dep
deriving DecidableEq, Repr

mutual
/-- A chart directory: its manifest and its `charts/` subdirectory. -/
inductive CTree : Type where
  | mk : Manifest → Charts → CTree

/-- The `charts/` subdirectory of a chart: absent on disk, or a listing. -/
inductive Charts : Type where
  | missing : Charts
  | present : EntryList → Charts

/-- One entry of a `charts/` directory listing. -/
inductive Entry : Type where
  | dir : String → CTree → Entry
  | archive : String → CTree → Entry
  | plain : String → Entry

/-- A listing of directory entries (a list, kept in the mutual block). -/
inductive EntryList : Type where
  | nil : EntryList
  | cons : Entry → EntryList → EntryList
end

/-- The manifest of a chart directory. -/
def CTree.manifest : CTree → Manifest
  | .mk m _ => m

/-- The `charts/` subdirectory of a chart directory. -/
def CTree.charts : CTree → Charts
  | .mk _ cs => cs

/-- Models `self.name` set in `Chart.__init__`: note that it is the
fully-qualified `name-version` string, not the bare manifest name. -/
def CTree.chartName (t : CTree) : String :=
  compute_name t.manifest.name t.manifest.version

/-- The file or directory name of one `charts/` entry. -/
def Entry.entryName : Entry → String
  | .dir n _ => n
  | .archive n _ => n
  | .plain n => n

/-- View an `EntryList` as an ordinary list, for stating membership. -/
def EntryList.toList : EntryList → List Entry
  | .nil => []
  | .cons e rest => e :: rest.toList

/-- Keep the entries satisfying a predicate. -/
def EntryList.filterEntries (p : Entry → Bool) : EntryList → EntryList
  | .nil => .nil
  | .cons e rest =>
      if p e then .cons e (filterEntries p rest) else filterEntries p rest

/-- Models `Path.exists` on `subcharts_dir / name`: any entry of any kind
with that name counts. -/
def entryExists : EntryList → String → Bool
  | .nil, _ => false
  | .cons e rest, name => (Entry.entryName e = name) || entryExists rest name

/-- Find the archive entry with the given file name, returning its content
(the chart obtained by extracting it). -/
def lookupArchive : EntryList → String → Option CTree
  | .nil, _ => none
  | .cons (.archive n c) rest, name =>
      if n = name then some c else lookupArchive rest name
  | .cons _ rest, name => lookupArchive rest name

/-- Models `rm` of the path with the given name. -/
def removeEntry (es : EntryList) (name : String) : EntryList :=
  es.filterEntries (fun e => !(Entry.entryName e = name))

/-- Append an entry at the end of a listing. -/
def appendEntry : EntryList → Entry → EntryList
  | .nil, e => .cons e .nil
  | .cons f rest, e => .cons f (appendEntry rest e)

/-- Write the archive `name` with the given content, replacing any existing
entry of that name (models `if new_path.exists(): rm(new_path); move(...)`
and the overwriting behaviour of `helm package`). -/
def upsertArchive (es : EntryList) (name : String) (content : CTree) : EntryList :=
  appendEntry (removeEntry es name) (.archive name content)

/-- Models `Chart.package(directory)`: `helm package` writes
`<name>-<version>.tgz`, named from the chart's own manifest. -/
def packageChart (src : CTree) (es : EntryList) : EntryList :=
  upsertArchive es (src.chartName ++ ".tgz") src

/-- Models `makedirs(self.subcharts_dir)`. -/
def ensureDir : Charts → Charts
  | .missing => .present .nil
  | cs => cs

/-- Error kinds of the embedded operations: `ambiguousSource` is the
`NotImplementedError` of `find_one_source`, `missingChartsDir` the
`FileNotFoundError` of iterating a missing `charts/` directory,
`extractFailure` a failed `tarfile.open`, and `outOfFuel` the artificial
bound on the recursion of `update_dependencies`. -/
inductive Err where
  | ambiguousSource : Err
  | outOfFuel : Err
  | missingChartsDir : Err
  | extractFailure : Err
deriving DecidableEq, Repr

/-- Models `Chart.find_one_source`: keep the sources whose `name` (the
fully-qualified one) is a string prefix of the dependency's fully-qualified
name; more than one match raises, zero gives `none`, one gives the match. -/
def find_one_source (dependency : String) (subchart_sources : List CTree) :
    Except Err (Option CTree) :=
  let matched := subchart_sources.filter
    (fun chart => str_startswith dependency chart.chartName)
  if matched.length > 1 then .error .ambiguousSource
  else .ok matched.head?

/-- Models `self.dependencies_fullnames` computed in `Chart.__init__`. -/
def dependencies_fullnames (m : Manifest) : List String :=
  m.dependencies.map (fun dep => compute_name dep.name dep.version)

/-- Models `Chart.match_to_dependencies`: the declared dependency full
names that the candidate name is a string prefix of. -/
def match_to_dependencies (m : Manifest) (name : String) : List String :=
  (dependencies_fullnames m).filter (fun dependency => str_startswith dependency name)

/-- Models `Chart.clean_dependencies`: iterate the `charts/` directory
(raising if it does not exist) and remove every entry whose name ends in
`.tgz` and whose extension-stripped name matches no declared dependency. -/
def clean_dependencies : CTree → Except Err CTree
  | .mk _ .missing => .error .missingChartsDir
  | .mk m (.present es) =>
      .ok (.mk m (.present (es.filterEntries (fun file =>
        !(str_endswith (Entry.entryName file) ".tgz" &&
          (match_to_dependencies m (str_dropright (Entry.entryName file) 4)).isEmpty)))))

mutual
/-- Models `Chart.resolve_subcharts`: return `false` if `charts/` does not
exist, else walk its entries. -/
def resolve_subcharts (subchart_sources : List CTree) : CTree → Except Err (Bool × CTree)
  | .mk m .missing => .ok (false, .mk m .missing)
  | .mk m (.present es) =>
      match resolve_entries subchart_sources es with
      | .error e => .error e
      | .ok (updated, es') => .ok (updated, .mk m (.present es'))

/-- The loop of `Chart.resolve_subcharts` over the `charts/` entries: each
subdirectory is loaded as a chart; a matching source replaces it wholesale
(no recursion into the replacement), otherwise the walk recurses into it,
or-ing the results; non-directory entries are untouched. -/
def resolve_entries (subchart_sources : List CTree) : EntryList → Except Err (Bool × EntryList)
  | .nil => .ok (false, .nil)
  | .cons (.dir n sub) rest =>
      match find_one_source (CTree.chartName sub) subchart_sources with
      | .error e => .error e
      | .ok (some src) =>
          match resolve_entries subchart_sources rest with
          | .error e => .error e
          | .ok (_, rest') => .ok (true, .cons (.dir n src) rest')
      | .ok none =>
          match resolve_subcharts subchart_sources sub with
          | .error e => .error e
          | .ok (subUpd, sub') =>
              match resolve_entries subchart_sources rest with
              | .error e => .error e
              | .ok (restUpd, rest') =>
                  .ok (subUpd || restUpd, .cons (.dir n sub') rest')
  | .cons e rest =>
      match resolve_entries subchart_sources rest with
      | .error err => .error err
      | .ok (restUpd, rest') => .ok (restUpd, .cons e rest')
end

/-- Models `to_resolve.add(...)`, a Python set insertion. -/
def insertName (l : List String) (n : String) : List String :=
  if n ∈ l then l else l ++ [n]

/-- Models the union `generated_dependencies | to_resolve` of Python sets
of names: each name kept once. -/
def dedupAppend (xs ys : List String) : List String :=
  xs ++ ys.filter (fun y => !(xs.contains y))

/-- The per-dependency loop of `Chart.update_dependencies`: `updSrc` stands
for the recursive `src.update_dependencies(...)` call; the loop threads the
`charts/` listing, the helm fetch batch, the re-check set and the updated
flag. -/
def update_deps_loop (updSrc : CTree → Except Err (Bool × CTree × List (List Dep)))
    (subchart_sources : List CTree) (force : Bool) :
    List Dep → EntryList → List Dep → List String → Bool →
    Except Err (EntryList × List Dep × List String × Bool)
  | [], es, toFetch, toResolve, updated => .ok (es, toFetch, toResolve, updated)
  | dep :: rest, es, toFetch, toResolve, updated =>
      match find_one_source (compute_name dep.name dep.version) subchart_sources with
      | .error e => .error e
      | .ok (some src) =>
          match updSrc src with
          | .error e => .error e
          | .ok (_, src', _) =>
              update_deps_loop updSrc subchart_sources force rest
                (packageChart src' es) toFetch toResolve true
      | .ok none =>
          if force then
            update_deps_loop updSrc subchart_sources force rest
              es (toFetch ++ [dep]) toResolve updated
          else if entryExists es (compute_name dep.name dep.version ++ ".tgz") then
            update_deps_loop updSrc subchart_sources force rest
              es toFetch (insertName toResolve (compute_name dep.name dep.version ++ ".tgz")) updated
          else
            update_deps_loop updSrc subchart_sources force rest
              es (toFetch ++ [dep]) toResolve updated

/-- The re-check loop of `Chart.update_dependencies` (step over
`generated_dependencies | to_resolve`): extract each archive, run
`resolve_subcharts` on it, and if it reports a change remove the archive
and package the substituted chart back into `charts/`. -/
def resolve_archives (subchart_sources : List CTree) :
    List String → EntryList → Except Err EntryList
  | [], es => .ok es
  | name :: rest, es =>
      match lookupArchive es name with
      | none => .error .extractFailure
      | some content =>
          match resolve_subcharts subchart_sources content with
          | .error e => .error e
          | .ok (updated_subcharts, content') =>
              if updated_subcharts then
                resolve_archives subchart_sources rest
                  (packageChart content' (removeEntry es name))
              else
                resolve_archives subchart_sources rest es

/-- Models the move loop of `Chart.get_dependencies_with_helm`: every
fetched archive is moved into `charts/`, replacing an existing entry. -/
def upsertAll : EntryList → List (String × CTree) → EntryList
  | es, [] => es
  | es, (n, c) :: rest => upsertAll (upsertArchive es n c) rest

/-- The `charts/` state at the start of the dependency loop: the directory
is created (`makedirs`) iff the chart declares dependencies. -/
def startCharts (m : Manifest) (cs₀ : Charts) : Charts :=
  if m.dependencies.isEmpty then cs₀ else ensureDir cs₀

/-- The archives produced by helm: `get_dependencies_with_helm` is invoked
only when the batch is non-empty, once, with the whole batch. -/
def fetched_archives (fetch : Manifest → List Dep → List (String × CTree))
    (m : Manifest) (toFetch : List Dep) : List (String × CTree) :=
  if toFetch.isEmpty then [] else fetch m toFetch

/-- The log of helm invocations performed by one `update_dependencies`
call: empty when the batch is empty, else the single whole-batch call. -/
def helm_fetch_log (toFetch : List Dep) : List (List Dep) :=
  if toFetch.isEmpty then [] else [toFetch]

/-- The tail of `Chart.update_dependencies` after the dependency loop: the
batched fetch, the re-check loop over `generated_dependencies | to_resolve`,
and the final `updated` value, which is forced to `true` whenever that
union is non-empty. -/
def update_finish (fetch : Manifest → List Dep → List (String × CTree))
    (subchart_sources : List CTree) (m : Manifest) (es₁ : EntryList)
    (toFetch : List Dep) (toResolve : List String) (updatedLoop : Bool) :
    Except Err (Bool × CTree × List (List Dep)) :=
  if ((fetched_archives fetch m toFetch).map Prod.fst).isEmpty && toResolve.isEmpty then
    .ok (updatedLoop,
      .mk m (.present (upsertAll es₁ (fetched_archives fetch m toFetch))),
      helm_fetch_log toFetch)
  else
    match resolve_archives subchart_sources
        (dedupAppend ((fetched_archives fetch m toFetch).map Prod.fst) toResolve)
        (upsertAll es₁ (fetched_archives fetch m toFetch)) with
    | .error e => .error e
    | .ok es₃ => .ok (true, .mk m (.present es₃), helm_fetch_log toFetch)

/-- The body of `Chart.update_dependencies` for one recursion level:
dependency loop, then `update_finish`. -/
def update_body (upd : CTree → Except Err (Bool × CTree × List (List Dep)))
    (fetch : Manifest → List Dep → List (String × CTree))
    (subchart_sources : List CTree) (force : Bool)
    (m : Manifest) (cs₀ : Charts) :
    Except Err (Bool × CTree × List (List Dep)) :=
  match startCharts m cs₀ with
  | .missing => .ok (false, .mk m .missing, [])
  | .present es₀ =>
      match update_deps_loop upd subchart_sources force m.dependencies es₀ [] [] false with
      | .error e => .error e
      | .ok (es₁, toFetch, toResolve, updatedLoop) =>
          update_finish fetch subchart_sources m es₁ toFetch toResolve updatedLoop

/-- Models `Chart.update_dependencies`, with fuel bounding the recursion
through `src.update_dependencies(...)`. -/
def update_dependencies (fetch : Manifest → List Dep → List (String × CTree))
    (subchart_sources : List CTree) (force : Bool) :
    Nat → CTree → Except Err (Bool × CTree × List (List Dep))
  | 0, _ => .error .outOfFuel
  | fuel + 1, .mk m cs₀ =>
      update_body (fun src => update_dependencies fetch subchart_sources force fuel src)
        fetch subchart_sources force m cs₀

/-! ## Basic lemmas about the directory-listing operations -/

theorem toList_filterEntries (p : Entry → Bool) :
    ∀ es : EntryList, (es.filterEntries p).toList = es.toList.filter p
  | .nil => rfl
  | .cons e rest => by
      cases h : p e <;>
        simp [EntryList.filterEntries, EntryList.toList, h, toList_filterEntries p rest]

theorem filterEntries_idem (p : Entry → Bool) :
    ∀ es : EntryList, (es.filterEntries p).filterEntries p = es.filterEntries p
  | .nil => rfl
  | .cons e rest => by
      cases h : p e <;> simp [EntryList.filterEntries, h, filterEntries_idem p rest]

/-! ## Fixtures: small concrete charts used by the witnesses -/

/-- A source chart whose manifest name is `foo` and version `2.0`. -/
def srcFoo : CTree := .mk ⟨"foo", "2.0", []⟩ .missing

/-- A dependency-free chart `x-1.0`. -/
def ctX : CTree := .mk ⟨"x", "1.0", []⟩ .missing

/-- A dependency-free chart `y-2.0`. -/
def ctY : CTree := .mk ⟨"y", "2.0", []⟩ .missing

/-- A manifest declaring the single dependency `x-1.0`. -/
def mX : Manifest := ⟨"app", "1", [⟨"x", "1.0"⟩]⟩

/-- A `charts/` listing holding the archives `x-1.0.tgz` and `y-2.0.tgz`. -/
def esXY : EntryList :=
  .cons (.archive "x-1.0.tgz" ctX) (.cons (.archive "y-2.0.tgz" ctY) .nil)

/-- The listing `esXY` after cleanup: only `x-1.0.tgz` remains. -/
def esX : EntryList := .cons (.archive "x-1.0.tgz" ctX) .nil

/-! ## C2: the source-matching rule -/

/-- The source-matching rule as the specification words it (matching on the
unversioned manifest `name` field alone); written from the spec, to be
compared with `find_one_source`, which matches on `Chart.name`, the
name-version string. -/
def find_one_source_spec_matches (dependency : String) (s : CTree) : Bool :=
  str_startswith dependency s.manifest.name

/-- C2 counterexample: the dependency `foo-dev-1.0` and a source whose
manifest name is `foo` with version `2.0`. The spec's rule (prefix on the
unversioned name) matches, but `find_one_source` compares against the
source's `name-version` string `foo-2.0` and finds no source at all: a
dependency named `foo-dev` is not satisfied by a source named `foo` of an
arbitrary version. -/
theorem find_one_source_unversioned_name_cex :
    find_one_source_spec_matches "foo-dev-1.0" srcFoo = true ∧
    find_one_source "foo-dev-1.0" [srcFoo] = .ok none :=
  ⟨rfl, rfl⟩

/-- C2 amended: a lone source chart `s` is matched to a dependency exactly
when the dependency's fully-qualified name starts with `s`'s
fully-qualified `name-version` string (the `Chart.name` computed in
`Chart.__init__`), not with the bare manifest name. -/
theorem find_one_source_matches_iff_full_name (dependency : String) (s : CTree) :
    find_one_source dependency [s] = .ok (some s) ↔
      str_startswith dependency (compute_name s.manifest.name s.manifest.version) = true := by
  have hn : CTree.chartName s = compute_name s.manifest.name s.manifest.version := rfl
  rw [← hn]
  unfold find_one_source
  cases h : str_startswith dependency s.chartName <;>
    simp [List.filter_cons, h]

/-! ## C6: cleanup deletes exactly the unmatched archives -/

/-- C6: after a successful `clean_dependencies` run, a `.tgz` entry of the
`charts/` directory survives exactly when `match_to_dependencies` on its
extension-stripped name is non-empty, i.e. some declared dependency's
fully-qualified name has that stripped name as a prefix. -/
theorem clean_deletes_iff_unmatched (m : Manifest) (es es' : EntryList) (e : Entry)
    (hclean : clean_dependencies (.mk m (.present es)) = .ok (.mk m (.present es')))
    (he : e ∈ es.toList)
    (htgz : str_endswith (Entry.entryName e) ".tgz" = true) :
    e ∈ es'.toList ↔
      match_to_dependencies m (str_dropright (Entry.entryName e) 4) ≠ [] := by
  simp only [clean_dependencies, Except.ok.injEq, CTree.mk.injEq, Charts.present.injEq,
    true_and] at hclean
  subst hclean
  rw [toList_filterEntries, List.mem_filter]
  simp [he, htgz, List.isEmpty_iff]

/-- C6 witness: with archives `x-1.0.tgz` and `y-2.0.tgz` and the single
declared dependency `x-1.0`, cleanup keeps `x-1.0.tgz` and removes
`y-2.0.tgz`. -/
theorem clean_deletes_iff_unmatched_witness :
    ((Entry.archive "x-1.0.tgz" ctX ∈ esX.toList ↔
        match_to_dependencies mX (str_dropright "x-1.0.tgz" 4) ≠ []) ∧
      (Entry.archive "y-2.0.tgz" ctY ∈ esX.toList ↔
        match_to_dependencies mX (str_dropright "y-2.0.tgz" 4) ≠ [])) :=
  ⟨clean_deletes_iff_unmatched mX esXY esX (.archive "x-1.0.tgz" ctX) rfl
      (List.Mem.head _) rfl,
    clean_deletes_iff_unmatched mX esXY esX (.archive "y-2.0.tgz" ctY) rfl
      (List.Mem.tail _ (List.Mem.head _)) rfl⟩

/-! ## C7: cleanup is idempotent -/

/-- C7: when `clean_dependencies` succeeds, running it again on the result
succeeds and deletes nothing: the directory listing is a fixpoint. -/
theorem clean_dependencies_idempotent (t t' : CTree)
    (h : clean_dependencies t = .ok t') :
    clean_dependencies t' = .ok t' := by
  cases t with
  | mk m cs =>
      cases cs with
      | missing => simp [clean_dependencies] at h
      | present es =>
          simp only [clean_dependencies, Except.ok.injEq] at h
          subst h
          simp [clean_dependencies, filterEntries_idem]

/-- C7 witness: cleaning the already-clean listing `esX` again returns it
unchanged. -/
theorem clean_dependencies_idempotent_witness :
    clean_dependencies (.mk mX (.present esX)) = .ok (.mk mX (.present esX)) :=
  clean_dependencies_idempotent (.mk mX (.present esXY)) (.mk mX (.present esX)) rfl

/-! ## C10: cleanup on a missing charts directory fails, substitution does not -/

/-- C10: on a chart whose `charts/` directory does not exist,
`clean_dependencies` fails (it iterates the directory without an existence
check, a `FileNotFoundError` in the source), while `resolve_subcharts`
checks existence first and returns `false` with no side effect. -/
theorem clean_missing_dir_fails_resolve_subcharts_ok (m : Manifest) (sources : List CTree) :
    clean_dependencies (.mk m .missing) = .error .missingChartsDir ∧
    resolve_subcharts sources (.mk m .missing) = .ok (false, .mk m .missing) :=
  ⟨rfl, rfl⟩

/-! ## C3: an ambiguous source aborts resolution -/

theorem find_one_source_error_iff (dependency : String) (subchart_sources : List CTree) :
    find_one_source dependency subchart_sources = .error .ambiguousSource ↔
      1 < (subchart_sources.filter
        (fun c => str_startswith dependency c.chartName)).length := by
  simp only [find_one_source]
  by_cases h : 1 < (subchart_sources.filter
      (fun c => str_startswith dependency c.chartName)).length
  · simp [h]
  · simp [h]

theorem ensureDir_present : ∀ cs : Charts, ∃ es, ensureDir cs = .present es
  | .missing => ⟨.nil, rfl⟩
  | .present es => ⟨es, rfl⟩

theorem startCharts_of_ne (m : Manifest) (cs : Charts) (h : m.dependencies ≠ []) :
    startCharts m cs = ensureDir cs := by
  cases hd : m.dependencies with
  | nil => exact absurd hd h
  | cons a l => simp [startCharts, hd]

theorem update_dependencies_succ (fetch : Manifest → List Dep → List (String × CTree))
    (subchart_sources : List CTree) (force : Bool) (fuel : Nat) (m : Manifest) (cs : Charts) :
    update_dependencies fetch subchart_sources force (fuel + 1) (.mk m cs) =
      update_body (fun src => update_dependencies fetch subchart_sources force fuel src)
        fetch subchart_sources force m cs := rfl

theorem update_deps_loop_error_of_member
    (updSrc : CTree → Except Err (Bool × CTree × List (List Dep)))
    (subchart_sources : List CTree) (force : Bool) (d : Dep)
    (hfind : find_one_source (compute_name d.name d.version) subchart_sources =
      .error .ambiguousSource) :
    ∀ deps : List Dep, d ∈ deps → ∀ es toFetch toResolve updated,
      ∃ e, update_deps_loop updSrc subchart_sources force deps es toFetch toResolve updated =
        .error e := by
  intro deps
  induction deps with
  | nil => intro h; cases h
  | cons dep rest ih =>
      intro hmem es tf tr u
      cases hf : find_one_source (compute_name dep.name dep.version) subchart_sources with
      | error e =>
          exact ⟨e, by simp [update_deps_loop, hf]⟩
      | ok srcOpt =>
          have hrest : d ∈ rest := by
            rcases List.mem_cons.mp hmem with h1 | h1
            · subst h1; rw [hfind] at hf; cases hf
            · exact h1
          cases srcOpt with
          | some src =>
              cases hu : updSrc src with
              | error e => exact ⟨e, by simp [update_deps_loop, hf, hu]⟩
              | ok r =>
                  obtain ⟨b, src', lg⟩ := r
                  obtain ⟨e, he⟩ := ih hrest (packageChart src' es) tf tr true
                  exact ⟨e, by simp [update_deps_loop, hf, hu, he]⟩
          | none =>
              cases force with
              | true =>
                  obtain ⟨e, he⟩ := ih hrest es (tf ++ [dep]) tr u
                  exact ⟨e, by simp [update_deps_loop, hf, he]⟩
              | false =>
                  cases hex : entryExists es (compute_name dep.name dep.version ++ ".tgz") with
                  | true =>
                      obtain ⟨e, he⟩ := ih hrest es tf
                        (insertName tr (compute_name dep.name dep.version ++ ".tgz")) u
                      exact ⟨e, by simp [update_deps_loop, hf, hex, he]⟩
                  | false =>
                      obtain ⟨e, he⟩ := ih hrest es (tf ++ [dep]) tr u
                      exact ⟨e, by simp [update_deps_loop, hf, hex, he]⟩

theorem update_body_error_of_loop
    (upd : CTree → Except Err (Bool × CTree × List (List Dep)))
    (fetch : Manifest → List Dep → List (String × CTree))
    (subchart_sources : List CTree) (force : Bool) (m : Manifest) (cs : Charts)
    (es₀ : EntryList) (e : Err)
    (hstart : startCharts m cs = .present es₀)
    (hloop : update_deps_loop upd subchart_sources force m.dependencies es₀ [] [] false =
      .error e) :
    update_body upd fetch subchart_sources force m cs = .error e := by
  simp only [update_body, hstart, hloop]

/-- C3: if more than one supplied source matches a declared dependency
under the prefix rule, `update_dependencies` never succeeds, and when that
dependency is the first one it fails with exactly `ambiguousSource` (the
`NotImplementedError` of `find_one_source`), before any archive is written
for it — the whole call aborts instead of silently picking a source. -/
theorem ambiguous_source_aborts_resolution
    (fetch : Manifest → List Dep → List (String × CTree))
    (subchart_sources : List CTree) (force : Bool) (fuel : Nat)
    (m : Manifest) (cs : Charts) (d : Dep)
    (hd : d ∈ m.dependencies)
    (hamb : 1 < (subchart_sources.filter
        (fun c => str_startswith (compute_name d.name d.version) c.chartName)).length) :
    (∀ r, update_dependencies fetch subchart_sources force (fuel + 1) (.mk m cs) ≠ .ok r) ∧
    (∀ rest, m.dependencies = d :: rest →
        update_dependencies fetch subchart_sources force (fuel + 1) (.mk m cs) =
          .error .ambiguousSource) := by
  have hfind : find_one_source (compute_name d.name d.version) subchart_sources =
      .error .ambiguousSource :=
    (find_one_source_error_iff _ _).mpr hamb
  have hne : m.dependencies ≠ [] := by intro h; rw [h] at hd; cases hd
  obtain ⟨es₀, hes⟩ := ensureDir_present cs
  have hstart : startCharts m cs = .present es₀ := by rw [startCharts_of_ne m cs hne, hes]
  constructor
  · intro r hr
    obtain ⟨e, he⟩ := update_deps_loop_error_of_member _ subchart_sources force d hfind
        m.dependencies hd es₀ [] [] false
    rw [update_dependencies_succ,
      update_body_error_of_loop _ fetch subchart_sources force m cs es₀ e hstart he] at hr
    cases hr
  · intro rest hrest
    have hloop : update_deps_loop
        (fun src => update_dependencies fetch subchart_sources force fuel src)
        subchart_sources force m.dependencies es₀ [] [] false = .error .ambiguousSource := by
      rw [hrest]
      simp [update_deps_loop, hfind]
    rw [update_dependencies_succ,
      update_body_error_of_loop _ fetch subchart_sources force m cs es₀ _ hstart hloop]

/-- C3 witness: the chart declaring the single dependency `x-1.0` with two
sources both named `x-1.0`. -/
theorem ambiguous_source_aborts_resolution_witness :
    ((⟨"x", "1.0"⟩ : Dep) ∈ mX.dependencies ∧
      1 < (([CTree.mk ⟨"x", "1.0", []⟩ .missing, CTree.mk ⟨"x", "1.0", []⟩ (.present .nil)]).filter
        (fun c => str_startswith (compute_name "x" "1.0") c.chartName)).length) ∧
    update_dependencies (fun _ _ => []) [CTree.mk ⟨"x", "1.0", []⟩ .missing,
        CTree.mk ⟨"x", "1.0", []⟩ (.present .nil)] false 1 (.mk mX (.present esX)) =
      .error .ambiguousSource := by
  refine ⟨⟨List.Mem.head _, by decide⟩, ?_⟩
  exact (ambiguous_source_aborts_resolution (fun _ _ => [])
      [CTree.mk ⟨"x", "1.0", []⟩ .missing, CTree.mk ⟨"x", "1.0", []⟩ (.present .nil)]
      false 0 mX (.present esX) ⟨"x", "1.0"⟩ (List.Mem.head _) (by decide)).2
    [] rfl

/-! ## C9: the subchart substituter -/

mutual
/-- The fully-qualified names of every directory-form subchart of a chart,
at any depth (the names `resolve_subcharts` will look up sources for). -/
def dirChartNames : CTree → List String
  | .mk _ .missing => []
  | .mk _ (.present es) => dirChartNamesEntries es

/-- The directory-form subchart names of one `charts/` listing. -/
def dirChartNamesEntries : EntryList → List String
  | .nil => []
  | .cons (.dir _ t) rest =>
      CTree.chartName t :: (dirChartNames t ++ dirChartNamesEntries rest)
  | .cons _ rest => dirChartNamesEntries rest
end

theorem find_one_source_of_single (dependency : String) (subchart_sources : List CTree)
    (s : CTree)
    (h : subchart_sources.filter (fun c => str_startswith dependency c.chartName) = [s]) :
    find_one_source dependency subchart_sources = .ok (some s) := by
  simp [find_one_source, h]

theorem find_one_source_of_empty (dependency : String) (subchart_sources : List CTree)
    (h : subchart_sources.filter (fun c => str_startswith dependency c.chartName) = []) :
    find_one_source dependency subchart_sources = .ok none := by
  simp [find_one_source, h]

mutual
theorem resolve_subcharts_no_match (sources : List CTree) :
    ∀ t : CTree, (∀ x ∈ dirChartNames t,
      sources.filter (fun c => str_startswith x c.chartName) = []) →
      resolve_subcharts sources t = .ok (false, t)
  | .mk _ .missing, _ => rfl
  | .mk m (.present es), h => by
      have hes := resolve_entries_no_match sources es
        (fun x hx => h x (by simpa [dirChartNames] using hx))
      simp [resolve_subcharts, hes]

theorem resolve_entries_no_match (sources : List CTree) :
    ∀ es : EntryList, (∀ x ∈ dirChartNamesEntries es,
      sources.filter (fun c => str_startswith x c.chartName) = []) →
      resolve_entries sources es = .ok (false, es)
  | .nil, _ => rfl
  | .cons (.dir n t) rest, h => by
      have hx : sources.filter
          (fun c => str_startswith (CTree.chartName t) c.chartName) = [] :=
        h _ (by simp [dirChartNamesEntries])
      have hfind := find_one_source_of_empty (CTree.chartName t) sources hx
      have h1 := resolve_subcharts_no_match sources t
        (fun x hx1 => h x (by simp [dirChartNamesEntries, hx1]))
      have h2 := resolve_entries_no_match sources rest
        (fun x hx2 => h x (by simp [dirChartNamesEntries, hx2]))
      simp [resolve_entries, hfind, h1, h2]
  | .cons (.archive n c) rest, h => by
      have h2 := resolve_entries_no_match sources rest
        (fun x hx2 => h x (by simpa [dirChartNamesEntries] using hx2))
      simp [resolve_entries, h2]
  | .cons (.plain n) rest, h => by
      have h2 := resolve_entries_no_match sources rest
        (fun x hx2 => h x (by simpa [dirChartNamesEntries] using hx2))
      simp [resolve_entries, h2]
end

/-- C9: the substituter walk. A directory entry whose chart is matched by
exactly one source is replaced by the source's whole directory, with no
recursion into the replacement, and the change flag is set; a directory
entry matched by no source is recursed into, its flag or-ed with the
rest's; and when no source matches any directory-form subchart at any
depth the walk returns `false` with the tree unchanged — no side effect. -/
theorem resolve_subcharts_substitution_spec (subchart_sources : List CTree) :
    (∀ n sub rest s b out,
        subchart_sources.filter
          (fun c => str_startswith (CTree.chartName sub) c.chartName) = [s] →
        resolve_entries subchart_sources (.cons (.dir n sub) rest) = .ok (b, out) →
        b = true ∧ ∃ bR rest', resolve_entries subchart_sources rest = .ok (bR, rest') ∧
          out = .cons (.dir n s) rest') ∧
    (∀ n sub rest b out,
        subchart_sources.filter
          (fun c => str_startswith (CTree.chartName sub) c.chartName) = [] →
        resolve_entries subchart_sources (.cons (.dir n sub) rest) = .ok (b, out) →
        ∃ bS sub' bR rest', resolve_subcharts subchart_sources sub = .ok (bS, sub') ∧
          resolve_entries subchart_sources rest = .ok (bR, rest') ∧
          b = (bS || bR) ∧ out = .cons (.dir n sub') rest') ∧
    (∀ t : CTree, (∀ x ∈ dirChartNames t,
        subchart_sources.filter (fun c => str_startswith x c.chartName) = []) →
        resolve_subcharts subchart_sources t = .ok (false, t)) := by
  refine ⟨?_, ?_, resolve_subcharts_no_match subchart_sources⟩
  · intro n sub rest s b out hone hres
    have hfind := find_one_source_of_single (CTree.chartName sub) subchart_sources s hone
    rw [show resolve_entries subchart_sources (.cons (.dir n sub) rest) =
        (match find_one_source (CTree.chartName sub) subchart_sources with
          | .error e => .error e
          | .ok (some src) =>
              match resolve_entries subchart_sources rest with
              | .error e => .error e
              | .ok (_, rest') => .ok (true, .cons (.dir n src) rest')
          | .ok none =>
              match resolve_subcharts subchart_sources sub with
              | .error e => .error e
              | .ok (subUpd, sub') =>
                  match resolve_entries subchart_sources rest with
                  | .error e => .error e
                  | .ok (restUpd, rest') =>
                      .ok (subUpd || restUpd, .cons (.dir n sub') rest')) from rfl,
      hfind] at hres
    cases hrest : resolve_entries subchart_sources rest with
    | error e => rw [hrest] at hres; cases hres
    | ok pr =>
        obtain ⟨bR, rest'⟩ := pr
        rw [hrest] at hres
        simp only [Except.ok.injEq, Prod.mk.injEq] at hres
        obtain ⟨hb, hout⟩ := hres
        exact ⟨hb.symm, bR, rest', rfl, hout.symm⟩
  · intro n sub rest b out hnone hres
    have hfind := find_one_source_of_empty (CTree.chartName sub) subchart_sources hnone
    rw [show resolve_entries subchart_sources (.cons (.dir n sub) rest) =
        (match find_one_source (CTree.chartName sub) subchart_sources with
          | .error e => .error e
          | .ok (some src) =>
              match resolve_entries subchart_sources rest with
              | .error e => .error e
              | .ok (_, rest') => .ok (true, .cons (.dir n src) rest')
          | .ok none =>
              match resolve_subcharts subchart_sources sub with
              | .error e => .error e
              | .ok (subUpd, sub') =>
                  match resolve_entries subchart_sources rest with
                  | .error e => .error e
                  | .ok (restUpd, rest') =>
                      .ok (subUpd || restUpd, .cons (.dir n sub') rest')) from rfl,
      hfind] at hres
    cases hsub : resolve_subcharts subchart_sources sub with
    | error e => rw [hsub] at hres; cases hres
    | ok prS =>
        obtain ⟨bS, sub'⟩ := prS
        rw [hsub] at hres
        cases hrest : resolve_entries subchart_sources rest with
        | error e => rw [hrest] at hres; cases hres
        | ok prR =>
            obtain ⟨bR, rest'⟩ := prR
            rw [hrest] at hres
            simp only [Except.ok.injEq, Prod.mk.injEq] at hres
            obtain ⟨hb, hout⟩ := hres
            exact ⟨bS, sub', bR, rest', rfl, rfl, hb.symm, hout.symm⟩

/-- A source chart `b-2`, used by the substituter witnesses. -/
def sBW : CTree := .mk ⟨"b", "2", []⟩ .missing

/-- A subchart `b-2-dev`, matched by the source `sBW` by prefix. -/
def tBW : CTree := .mk ⟨"b", "2-dev", []⟩ .missing

/-- A subchart `c-1`, matched by no source. -/
def tCW : CTree := .mk ⟨"c", "1", []⟩ .missing

/-- C9 witness: with the single source `b-2`, the subchart directory
`b-2-dev` is substituted (no recursion into the copy), the unmatched
subchart `c-1` is recursed into and left unchanged, and a chart with no
matching subchart anywhere resolves to `false` unchanged. -/
theorem resolve_subcharts_substitution_spec_witness :
    (true = true ∧ ∃ bR rest', resolve_entries [sBW] .nil = .ok (bR, rest') ∧
        EntryList.cons (.dir "b" sBW) .nil = .cons (.dir "b" sBW) rest') ∧
    (∃ bS sub' bR rest', resolve_subcharts [sBW] tCW = .ok (bS, sub') ∧
        resolve_entries [sBW] .nil = .ok (bR, rest') ∧
        false = (bS || bR) ∧
        EntryList.cons (.dir "c" tCW) .nil = .cons (.dir "c" sub') rest') ∧
    resolve_subcharts [sBW] tCW = .ok (false, tCW) :=
  ⟨(resolve_subcharts_substitution_spec [sBW]).1 "b" tBW .nil sBW true
      (.cons (.dir "b" sBW) .nil) rfl rfl,
    (resolve_subcharts_substitution_spec [sBW]).2.1 "c" tCW .nil false
      (.cons (.dir "c" tCW) .nil) rfl rfl,
    (resolve_subcharts_substitution_spec [sBW]).2.2 tCW (by simp [tCW, dirChartNames])⟩

/-! ## C8: transitive substitution through an existing archive -/

theorem entryExists_of_lookup : ∀ (es : EntryList) (n : String) (c : CTree),
    lookupArchive es n = some c → entryExists es n = true
  | .nil, n, c, h => by simp [lookupArchive] at h
  | .cons (.archive m d) rest, n, c, h => by
      by_cases hm : m = n
      · simp [entryExists, Entry.entryName, hm]
      · rw [lookupArchive, if_neg hm] at h
        simp [entryExists, entryExists_of_lookup rest n c h]
  | .cons (.dir m t) rest, n, c, h => by
      have h2 : lookupArchive rest n = some c := h
      simp [entryExists, entryExists_of_lookup rest n c h2]
  | .cons (.plain m) rest, n, c, h => by
      have h2 : lookupArchive rest n = some c := h
      simp [entryExists, entryExists_of_lookup rest n c h2]

theorem entryExists_removeEntry_self : ∀ (es : EntryList) (n : String),
    entryExists (removeEntry es n) n = false
  | .nil, n => rfl
  | .cons e rest, n => by
      have ih := entryExists_removeEntry_self rest n
      by_cases he : Entry.entryName e = n
      · simpa [removeEntry, EntryList.filterEntries, he] using ih
      · simpa [removeEntry, EntryList.filterEntries, he, entryExists] using ih

theorem lookupArchive_append_archive : ∀ (es : EntryList) (n : String) (c : CTree),
    entryExists es n = false → lookupArchive (appendEntry es (.archive n c)) n = some c
  | .nil, n, c, _ => by simp [appendEntry, lookupArchive]
  | .cons e rest, n, c, h => by
      simp only [entryExists, Bool.or_eq_false_iff, decide_eq_false_iff_not] at h
      obtain ⟨h1, h2⟩ := h
      cases e with
      | archive m d =>
          have hmn : m ≠ n := by simpa [Entry.entryName] using h1
          simp [appendEntry, lookupArchive, hmn, lookupArchive_append_archive rest n c h2]
      | dir m t =>
          simp [appendEntry, lookupArchive, lookupArchive_append_archive rest n c h2]
      | plain m =>
          simp [appendEntry, lookupArchive, lookupArchive_append_archive rest n c h2]

theorem lookupArchive_upsert_self (es : EntryList) (n : String) (c : CTree) :
    lookupArchive (upsertArchive es n c) n = some c :=
  lookupArchive_append_archive _ n c (entryExists_removeEntry_self es n)

theorem dedupAppend_nil (ys : List String) : dedupAppend [] ys = ys := by
  simp [dedupAppend]

/-- C8: a chart whose single dependency `A` is already present as the
archive `fqA.tgz` (no source matches `A` itself), where the extracted `A`
holds one directory-form subchart `B` matched by exactly one source `sB`:
one `update_dependencies` call with `force = false` extracts the archive,
substitutes `sB` for `B`, and repackages `A` over the original archive
(remove, then write), reporting `updated = true` and no helm fetch; the
resulting `A` archive contains the source's `B`. -/
theorem transitive_substitution_repackages
    (fetch : Manifest → List Dep → List (String × CTree))
    (subchart_sources : List CTree) (fuel : Nat)
    (m mA : Manifest) (es : EntryList) (depA : Dep) (nB : String) (tB sB : CTree)
    (hdeps : m.dependencies = [depA])
    (hAnoSrc : subchart_sources.filter
      (fun c => str_startswith (compute_name depA.name depA.version) c.chartName) = [])
    (hAfile : lookupArchive es (compute_name depA.name depA.version ++ ".tgz") =
      some (.mk mA (.present (.cons (.dir nB tB) .nil))))
    (hAname : compute_name mA.name mA.version = compute_name depA.name depA.version)
    (hBsrc : subchart_sources.filter
      (fun c => str_startswith (CTree.chartName tB) c.chartName) = [sB]) :
    update_dependencies fetch subchart_sources false (fuel + 1) (.mk m (.present es)) =
      .ok (true,
        .mk m (.present (upsertArchive
          (removeEntry es (compute_name depA.name depA.version ++ ".tgz"))
          (compute_name depA.name depA.version ++ ".tgz")
          (.mk mA (.present (.cons (.dir nB sB) .nil))))),
        []) ∧
    lookupArchive
        (upsertArchive (removeEntry es (compute_name depA.name depA.version ++ ".tgz"))
          (compute_name depA.name depA.version ++ ".tgz")
          (.mk mA (.present (.cons (.dir nB sB) .nil))))
        (compute_name depA.name depA.version ++ ".tgz") =
      some (.mk mA (.present (.cons (.dir nB sB) .nil))) := by
  constructor
  · have hfind := find_one_source_of_empty
      (compute_name depA.name depA.version) subchart_sources hAnoSrc
    have hex : entryExists es (compute_name depA.name depA.version ++ ".tgz") = true :=
      entryExists_of_lookup es _ _ hAfile
    have hfB := find_one_source_of_single (CTree.chartName tB) subchart_sources sB hBsrc
    have hsubA : resolve_subcharts subchart_sources
        (.mk mA (.present (.cons (.dir nB tB) .nil))) =
        .ok (true, .mk mA (.present (.cons (.dir nB sB) .nil))) := by
      simp [resolve_subcharts, resolve_entries, hfB]
    have hloop : update_deps_loop
        (fun src => update_dependencies fetch subchart_sources false fuel src)
        subchart_sources false [depA] es [] [] false =
        .ok (es, [], [compute_name depA.name depA.version ++ ".tgz"], false) := by
      simp [update_deps_loop, hfind, hex, insertName]
    have hpack : packageChart (.mk mA (.present (.cons (.dir nB sB) .nil)))
        (removeEntry es (compute_name depA.name depA.version ++ ".tgz")) =
        upsertArchive (removeEntry es (compute_name depA.name depA.version ++ ".tgz"))
          (compute_name depA.name depA.version ++ ".tgz")
          (.mk mA (.present (.cons (.dir nB sB) .nil))) := by
      simp only [packageChart, CTree.chartName, CTree.manifest, hAname]
    have harch : resolve_archives subchart_sources
        [compute_name depA.name depA.version ++ ".tgz"] es =
        .ok (upsertArchive (removeEntry es (compute_name depA.name depA.version ++ ".tgz"))
          (compute_name depA.name depA.version ++ ".tgz")
          (.mk mA (.present (.cons (.dir nB sB) .nil)))) := by
      simp [resolve_archives, hAfile, hsubA, hpack]
    have hne : m.dependencies ≠ [] := by rw [hdeps]; exact List.cons_ne_nil _ _
    have hstart : startCharts m (.present es) = .present es := by
      rw [startCharts_of_ne m _ hne]; rfl
    rw [update_dependencies_succ]
    simp only [update_body, hstart, hdeps, hloop, upsertAll]
    simp [update_finish, fetched_archives, helm_fetch_log, upsertAll, dedupAppend_nil, harch]
  · exact lookupArchive_upsert_self _ _ _

/-! ## C4: a matched source takes precedence over fetch and archives -/

theorem append_tgz_cancel {a b : String} (h : a ++ ".tgz" = b ++ ".tgz") : a = b := by
  have hd : a.data ++ ".tgz".data = b.data ++ ".tgz".data := by
    have h1 : (a ++ ".tgz").data = a.data ++ ".tgz".data := rfl
    have h2 : (b ++ ".tgz").data = b.data ++ ".tgz".data := rfl
    rw [← h1, ← h2, h]
  exact String.ext (List.append_cancel_right hd)

theorem update_finish_manifest
    (fetch : Manifest → List Dep → List (String × CTree))
    (subchart_sources : List CTree) (m : Manifest) (es₁ : EntryList)
    (toFetch : List Dep) (toResolve : List String) (updatedLoop : Bool) :
    ∀ b t log,
      update_finish fetch subchart_sources m es₁ toFetch toResolve updatedLoop =
        .ok (b, t, log) →
      CTree.manifest t = m := by
  intro b t log h
  unfold update_finish at h
  split at h
  · simp only [Except.ok.injEq, Prod.mk.injEq] at h
    obtain ⟨-, ht, -⟩ := h
    rw [← ht]; rfl
  · split at h
    · cases h
    · simp only [Except.ok.injEq, Prod.mk.injEq] at h
      obtain ⟨-, ht, -⟩ := h
      rw [← ht]; rfl

theorem update_body_manifest
    (upd : CTree → Except Err (Bool × CTree × List (List Dep)))
    (fetch : Manifest → List Dep → List (String × CTree))
    (subchart_sources : List CTree) (force : Bool) (m : Manifest) (cs : Charts) :
    ∀ b t log, update_body upd fetch subchart_sources force m cs = .ok (b, t, log) →
      CTree.manifest t = m := by
  intro b t log h
  unfold update_body at h
  split at h
  · simp only [Except.ok.injEq, Prod.mk.injEq] at h
    obtain ⟨-, ht, -⟩ := h
    rw [← ht]; rfl
  · split at h
    · cases h
    · exact update_finish_manifest fetch subchart_sources m _ _ _ _ b t log h

theorem update_dependencies_manifest
    (fetch : Manifest → List Dep → List (String × CTree))
    (subchart_sources : List CTree) (force : Bool) :
    ∀ (fuel : Nat) (t : CTree) (b : Bool) (t' : CTree) (log : List (List Dep)),
      update_dependencies fetch subchart_sources force fuel t = .ok (b, t', log) →
      CTree.manifest t' = CTree.manifest t
  | 0, t, b, t', log, h => Except.noConfusion h
  | fuel + 1, .mk m cs, b, t', log, h => by
      rw [update_dependencies_succ] at h
      exact update_body_manifest _ fetch subchart_sources force m cs b t' log h

theorem entryExists_appendEntry : ∀ (es : EntryList) (e : Entry) (x : String),
    entryExists (appendEntry es e) x =
      (entryExists es x || decide (Entry.entryName e = x))
  | .nil, e, x => by simp [appendEntry, entryExists]
  | .cons f rest, e, x => by
      simp [appendEntry, entryExists, entryExists_appendEntry rest e x, Bool.or_assoc]

theorem entryExists_removeEntry_ne : ∀ (es : EntryList) (n x : String), x ≠ n →
    entryExists (removeEntry es n) x = entryExists es x
  | .nil, n, x, _ => rfl
  | .cons e rest, n, x, hxn => by
      have ih := entryExists_removeEntry_ne rest n x hxn
      by_cases he : Entry.entryName e = n
      · have hex : decide (Entry.entryName e = x) = false := by
          simp [he]; exact fun hx => hxn hx.symm
        simp only [removeEntry, EntryList.filterEntries, he] at ih ⊢
        simp [entryExists, hex, ih]
      · simp only [removeEntry, EntryList.filterEntries, he] at ih ⊢
        simp [entryExists, ih]

theorem entryExists_upsert_self (es : EntryList) (n : String) (c : CTree) :
    entryExists (upsertArchive es n c) n = true :=
  entryExists_of_lookup _ n c (lookupArchive_upsert_self es n c)

theorem entryExists_upsert_of (es : EntryList) (n x : String) (c : CTree)
    (h : entryExists es x = true) :
    entryExists (upsertArchive es n c) x = true := by
  by_cases hxn : x = n
  · rw [hxn]; exact entryExists_upsert_self es n c
  · rw [upsertArchive, entryExists_appendEntry, entryExists_removeEntry_ne es n x hxn, h]
    rfl

theorem not_mem_insertName {tr : List String} {x n : String}
    (hx : x ∉ tr) (hxn : x ≠ n) : x ∉ insertName tr n := by
  unfold insertName
  split
  · exact hx
  · intro hmem
    rcases List.mem_append.mp hmem with h1 | h1
    · exact hx h1
    · simp at h1; exact hxn h1

theorem insertName_ne_nil (tr : List String) (n : String) : insertName tr n ≠ [] := by
  unfold insertName
  split
  · intro h; subst h; simp_all
  · intro h; exact absurd h (by simp)

theorem mem_insertName {tr : List String} {x n : String} (hx : x ∈ insertName tr n) :
    x ∈ tr ∨ x = n := by
  unfold insertName at hx
  split at hx
  · exact Or.inl hx
  · rcases List.mem_append.mp hx with h1 | h1
    · exact Or.inl h1
    · simp at h1; exact Or.inr h1

theorem update_deps_loop_preserves
    (upd : CTree → Except Err (Bool × CTree × List (List Dep)))
    (subchart_sources : List CTree) (force : Bool) (d : Dep) (s : CTree)
    (hone : subchart_sources.filter
      (fun c => str_startswith (compute_name d.name d.version) c.chartName) = [s]) :
    ∀ (deps : List Dep) (es : EntryList) (tf : List Dep) (tr : List String) (u : Bool)
      (es' : EntryList) (tf' : List Dep) (tr' : List String) (u' : Bool),
      update_deps_loop upd subchart_sources force deps es tf tr u = .ok (es', tf', tr', u') →
      (d ∉ tf → d ∉ tf') ∧
      ((compute_name d.name d.version ++ ".tgz") ∉ tr →
        (compute_name d.name d.version ++ ".tgz") ∉ tr') ∧
      (u = true → u' = true) ∧
      (entryExists es (CTree.chartName s ++ ".tgz") = true →
        entryExists es' (CTree.chartName s ++ ".tgz") = true) := by
  intro deps
  induction deps with
  | nil =>
      intro es tf tr u es' tf' tr' u' h
      simp only [update_deps_loop, Except.ok.injEq, Prod.mk.injEq] at h
      obtain ⟨h1, h2, h3, h4⟩ := h
      subst h1; subst h2; subst h3; subst h4
      exact ⟨id, id, id, id⟩
  | cons dep rest ih =>
      intro es tf tr u es' tf' tr' u' h
      cases hf : find_one_source (compute_name dep.name dep.version) subchart_sources with
      | error e => simp [update_deps_loop, hf] at h
      | ok srcOpt =>
          cases srcOpt with
          | some src =>
              cases hu : upd src with
              | error e => simp [update_deps_loop, hf, hu] at h
              | ok r =>
                  obtain ⟨b, src', lg⟩ := r
                  simp only [update_deps_loop, hf, hu] at h
                  obtain ⟨p1, p2, p3, p4⟩ := ih (packageChart src' es) tf tr true es' tf' tr' u' h
                  exact ⟨p1, p2, fun _ => p3 rfl,
                    fun hx => p4 (entryExists_upsert_of es _ _ src' hx)⟩
          | none =>
              have hdep_ne : dep ≠ d := by
                intro hdd
                rw [hdd, find_one_source_of_single _ subchart_sources s hone] at hf
                cases hf
              have hfq_ne : compute_name dep.name dep.version ++ ".tgz" ≠
                  compute_name d.name d.version ++ ".tgz" := by
                intro hq
                have := append_tgz_cancel hq
                rw [this, find_one_source_of_single _ subchart_sources s hone] at hf
                cases hf
              cases force with
              | true =>
                  simp only [update_deps_loop, hf, if_true] at h
                  obtain ⟨p1, p2, p3, p4⟩ := ih es (tf ++ [dep]) tr u es' tf' tr' u' h
                  refine ⟨fun hd1 => p1 ?_, p2, p3, p4⟩
                  intro hmem
                  rcases List.mem_append.mp hmem with h1 | h1
                  · exact hd1 h1
                  · simp at h1; exact hdep_ne h1.symm
              | false =>
                  cases hex : entryExists es (compute_name dep.name dep.version ++ ".tgz") with
                  | true =>
                      simp only [update_deps_loop, hf, hex, if_false, Bool.false_eq_true,
                        if_true] at h
                      obtain ⟨p1, p2, p3, p4⟩ := ih es tf
                        (insertName tr (compute_name dep.name dep.version ++ ".tgz")) u
                        es' tf' tr' u' h
                      exact ⟨p1, fun ht => p2 (not_mem_insertName ht
                        (fun hq => hfq_ne hq.symm)), p3, p4⟩
                  | false =>
                      simp only [update_deps_loop, hf, hex, if_false, Bool.false_eq_true] at h
                      obtain ⟨p1, p2, p3, p4⟩ := ih es (tf ++ [dep]) tr u es' tf' tr' u' h
                      refine ⟨fun hd1 => p1 ?_, p2, p3, p4⟩
                      intro hmem
                      rcases List.mem_append.mp hmem with h1 | h1
                      · exact hd1 h1
                      · simp at h1; exact hdep_ne h1.symm

theorem update_deps_loop_source_branch
    (upd : CTree → Except Err (Bool × CTree × List (List Dep)))
    (subchart_sources : List CTree) (force : Bool) (d : Dep) (s : CTree)
    (hone : subchart_sources.filter
      (fun c => str_startswith (compute_name d.name d.version) c.chartName) = [s])
    (hupd : ∀ src b t log, upd src = .ok (b, t, log) →
      CTree.manifest t = CTree.manifest src) :
    ∀ (deps : List Dep) (es : EntryList) (tf : List Dep) (tr : List String) (u : Bool)
      (es' : EntryList) (tf' : List Dep) (tr' : List String) (u' : Bool),
      d ∈ deps →
      update_deps_loop upd subchart_sources force deps es tf tr u = .ok (es', tf', tr', u') →
      d ∉ tf → (compute_name d.name d.version ++ ".tgz") ∉ tr →
      d ∉ tf' ∧ (compute_name d.name d.version ++ ".tgz") ∉ tr' ∧ u' = true ∧
      entryExists es' (CTree.chartName s ++ ".tgz") = true := by
  intro deps
  induction deps with
  | nil => intro es tf tr u es' tf' tr' u' hmem; cases hmem
  | cons dep rest ih =>
      intro es tf tr u es' tf' tr' u' hmem h htf htr
      by_cases hdd : dep = d
      · subst hdd
        have hf := find_one_source_of_single _ subchart_sources s hone
        cases hu : upd s with
        | error e => simp [update_deps_loop, hf, hu] at h
        | ok r =>
            obtain ⟨b, src', lg⟩ := r
            simp only [update_deps_loop, hf, hu] at h
            obtain ⟨p1, p2, p3, p4⟩ := update_deps_loop_preserves upd subchart_sources force
              dep s hone rest (packageChart src' es) tf tr true es' tf' tr' u' h
            have hname : CTree.chartName src' = CTree.chartName s := by
              unfold CTree.chartName
              rw [hupd s b src' lg hu]
            refine ⟨p1 htf, p2 htr, p3 rfl, p4 ?_⟩
            unfold packageChart
            rw [hname]
            exact entryExists_upsert_self es _ src'
      · have hmem' : d ∈ rest := by
          rcases List.mem_cons.mp hmem with h1 | h1
          · exact absurd h1.symm hdd
          · exact h1
        cases hf : find_one_source (compute_name dep.name dep.version) subchart_sources with
        | error e => simp [update_deps_loop, hf] at h
        | ok srcOpt =>
            cases srcOpt with
            | some src =>
                cases hu : upd src with
                | error e => simp [update_deps_loop, hf, hu] at h
                | ok r =>
                    obtain ⟨b, src', lg⟩ := r
                    simp only [update_deps_loop, hf, hu] at h
                    exact ih (packageChart src' es) tf tr true es' tf' tr' u' hmem' h htf htr
            | none =>
                have hfq_ne : compute_name dep.name dep.version ++ ".tgz" ≠
                    compute_name d.name d.version ++ ".tgz" := by
                  intro hq
                  have := append_tgz_cancel hq
                  rw [this, find_one_source_of_single _ subchart_sources s hone] at hf
                  cases hf
                cases force with
                | true =>
                    simp only [update_deps_loop, hf, if_true] at h
                    refine ih es (tf ++ [dep]) tr u es' tf' tr' u' hmem' h ?_ htr
                    intro hmem2
                    rcases List.mem_append.mp hmem2 with h1 | h1
                    · exact htf h1
                    · simp at h1; exact hdd h1.symm
                | false =>
                    cases hex : entryExists es
                        (compute_name dep.name dep.version ++ ".tgz") with
                    | true =>
                        simp only [update_deps_loop, hf, hex, if_false, Bool.false_eq_true,
                          if_true] at h
                        exact ih es tf
                          (insertName tr (compute_name dep.name dep.version ++ ".tgz")) u
                          es' tf' tr' u' hmem' h htf
                          (not_mem_insertName htr (fun hq => hfq_ne hq.symm))
                    | false =>
                        simp only [update_deps_loop, hf, hex, if_false,
                          Bool.false_eq_true] at h
                        refine ih es (tf ++ [dep]) tr u es' tf' tr' u' hmem' h ?_ htr
                        intro hmem2
                        rcases List.mem_append.mp hmem2 with h1 | h1
                        · exact htf h1
                        · simp at h1; exact hdd h1.symm

theorem startCharts_missing (m : Manifest) (cs : Charts) (h : startCharts m cs = .missing) :
    m.dependencies = [] := by
  cases hd : m.dependencies with
  | nil => rfl
  | cons a l =>
      rw [startCharts_of_ne m cs (by rw [hd]; exact List.cons_ne_nil a l)] at h
      obtain ⟨es, he⟩ := ensureDir_present cs
      rw [he] at h
      exact absurd h (by simp)

/-- C4: when exactly one source `s` matches a declared dependency `d`, the
dependency loop never puts `d` in the helm fetch batch nor `d`'s archive
name in the re-check set — for any force flag and any prior `charts/`
content, so also when `d`'s archive already exists — it sets the updated
flag, and it leaves the (recursively updated) source packaged as
`s.name.tgz` in the `charts/` listing; consequently `update_dependencies`
reports `updated = true`. -/
theorem source_match_packages_and_skips_fetch
    (fetch : Manifest → List Dep → List (String × CTree))
    (subchart_sources : List CTree) (force : Bool) (fuel : Nat)
    (m : Manifest) (cs : Charts) (d : Dep) (s : CTree)
    (hd : d ∈ m.dependencies)
    (hone : subchart_sources.filter
      (fun c => str_startswith (compute_name d.name d.version) c.chartName) = [s]) :
    (∀ es es' tf' tr' u',
        update_deps_loop (fun src => update_dependencies fetch subchart_sources force fuel src)
          subchart_sources force m.dependencies es [] [] false = .ok (es', tf', tr', u') →
        d ∉ tf' ∧ (compute_name d.name d.version ++ ".tgz") ∉ tr' ∧ u' = true ∧
        entryExists es' (CTree.chartName s ++ ".tgz") = true) ∧
    (∀ b t log, update_dependencies fetch subchart_sources force (fuel + 1) (.mk m cs) =
        .ok (b, t, log) → b = true) := by
  have hupd : ∀ src b t log,
      (fun src => update_dependencies fetch subchart_sources force fuel src) src =
        .ok (b, t, log) →
      CTree.manifest t = CTree.manifest src := fun src b t log h =>
    update_dependencies_manifest fetch subchart_sources force fuel src b t log h
  constructor
  · intro es es' tf' tr' u' h
    exact update_deps_loop_source_branch _ subchart_sources force d s hone hupd
      m.dependencies es [] [] false es' tf' tr' u' hd h (by simp) (by simp)
  · intro b t log h
    rw [update_dependencies_succ] at h
    unfold update_body at h
    split at h
    · rename_i hsc
      rw [startCharts_missing m cs hsc] at hd
      cases hd
    · rename_i es₀ hsc
      split at h
      · cases h
      · rename_i es₁ toFetch toResolve ul hloop
        obtain ⟨-, -, hu, -⟩ := update_deps_loop_source_branch _ subchart_sources force d s
          hone hupd m.dependencies es₀ [] [] false es₁ toFetch toResolve ul hd hloop
          (by simp) (by simp)
        unfold update_finish at h
        split at h
        · simp only [Except.ok.injEq, Prod.mk.injEq] at h
          obtain ⟨hb, -⟩ := h
          rw [← hb]; exact hu
        · split at h
          · cases h
          · simp only [Except.ok.injEq, Prod.mk.injEq] at h
            obtain ⟨hb, -⟩ := h
            exact hb.symm

/-- The manifest of a chart declaring the single dependency `b-2-dev`,
which the source `sBW` (named `b-2`) matches by prefix. -/
def mW4 : Manifest := ⟨"app", "1", [⟨"b", "2-dev"⟩]⟩

/-- C4 witness: resolving `mW4` from an empty `charts/` directory with the
source `b-2` packages the source, adds nothing to the fetch batch or the
re-check set, and reports `updated = true`. -/
theorem source_match_packages_and_skips_fetch_witness :
    ((⟨"b", "2-dev"⟩ : Dep) ∉ ([] : List Dep) ∧
      (compute_name "b" "2-dev" ++ ".tgz") ∉ ([] : List String) ∧ true = true ∧
      entryExists (.cons (.archive "b-2.tgz" sBW) .nil) (CTree.chartName sBW ++ ".tgz") =
        true) ∧
    true = true :=
  ⟨(source_match_packages_and_skips_fetch (fun _ _ => []) [sBW] false 1 mW4
        (.present .nil) ⟨"b", "2-dev"⟩ sBW (List.Mem.head _) rfl).1
      .nil (.cons (.archive "b-2.tgz" sBW) .nil) [] [] true rfl,
    (source_match_packages_and_skips_fetch (fun _ _ => []) [sBW] false 1 mW4
        (.present .nil) ⟨"b", "2-dev"⟩ sBW (List.Mem.head _) rfl).2
      true (.mk mW4 (.present (.cons (.archive "b-2.tgz" sBW) .nil))) [] rfl⟩

/-! ## C5: force adds archived dependencies to the single batched fetch -/

theorem update_deps_loop_toFetch_mono
    (upd : CTree → Except Err (Bool × CTree × List (List Dep)))
    (subchart_sources : List CTree) (force : Bool) :
    ∀ (deps : List Dep) (es : EntryList) (tf : List Dep) (tr : List String) (u : Bool)
      (es' : EntryList) (tf' : List Dep) (tr' : List String) (u' : Bool),
      update_deps_loop upd subchart_sources force deps es tf tr u = .ok (es', tf', tr', u') →
      ∀ x ∈ tf, x ∈ tf' := by
  intro deps
  induction deps with
  | nil =>
      intro es tf tr u es' tf' tr' u' h x hx
      simp only [update_deps_loop, Except.ok.injEq, Prod.mk.injEq] at h
      obtain ⟨-, h2, -, -⟩ := h
      exact h2 ▸ hx
  | cons dep rest ih =>
      intro es tf tr u es' tf' tr' u' h x hx
      cases hf : find_one_source (compute_name dep.name dep.version) subchart_sources with
      | error e => simp [update_deps_loop, hf] at h
      | ok srcOpt =>
          cases srcOpt with
          | some src =>
              cases hu : upd src with
              | error e => simp [update_deps_loop, hf, hu] at h
              | ok r =>
                  obtain ⟨b, src', lg⟩ := r
                  simp only [update_deps_loop, hf, hu] at h
                  exact ih (packageChart src' es) tf tr true es' tf' tr' u' h x hx
          | none =>
              cases force with
              | true =>
                  simp only [update_deps_loop, hf, if_true] at h
                  exact ih es (tf ++ [dep]) tr u es' tf' tr' u' h x
                    (List.mem_append_left _ hx)
              | false =>
                  cases hex : entryExists es
                      (compute_name dep.name dep.version ++ ".tgz") with
                  | true =>
                      simp only [update_deps_loop, hf, hex, if_false, Bool.false_eq_true,
                        if_true] at h
                      exact ih es tf _ u es' tf' tr' u' h x hx
                  | false =>
                      simp only [update_deps_loop, hf, hex, if_false,
                        Bool.false_eq_true] at h
                      exact ih es (tf ++ [dep]) tr u es' tf' tr' u' h x
                        (List.mem_append_left _ hx)

theorem update_deps_loop_force_adds
    (upd : CTree → Except Err (Bool × CTree × List (List Dep)))
    (subchart_sources : List CTree) (d : Dep)
    (hnone : subchart_sources.filter
      (fun c => str_startswith (compute_name d.name d.version) c.chartName) = []) :
    ∀ (deps : List Dep) (es : EntryList) (tf : List Dep) (tr : List String) (u : Bool)
      (es' : EntryList) (tf' : List Dep) (tr' : List String) (u' : Bool),
      d ∈ deps →
      update_deps_loop upd subchart_sources true deps es tf tr u = .ok (es', tf', tr', u') →
      d ∈ tf' := by
  intro deps
  induction deps with
  | nil => intro es tf tr u es' tf' tr' u' hmem; cases hmem
  | cons dep rest ih =>
      intro es tf tr u es' tf' tr' u' hmem h
      rcases List.mem_cons.mp hmem with h1 | h1
      · subst h1
        have hf := find_one_source_of_empty _ subchart_sources hnone
        simp only [update_deps_loop, hf, if_true] at h
        exact update_deps_loop_toFetch_mono upd subchart_sources true rest es (tf ++ [d])
          tr u es' tf' tr' u' h d (List.mem_append_right _ (List.Mem.head _))
      · cases hf : find_one_source (compute_name dep.name dep.version) subchart_sources with
        | error e => simp [update_deps_loop, hf] at h
        | ok srcOpt =>
            cases srcOpt with
            | some src =>
                cases hu : upd src with
                | error e => simp [update_deps_loop, hf, hu] at h
                | ok r =>
                    obtain ⟨b, src', lg⟩ := r
                    simp only [update_deps_loop, hf, hu] at h
                    exact ih (packageChart src' es) tf tr true es' tf' tr' u' h1 h
            | none =>
                simp only [update_deps_loop, hf, if_true] at h
                exact ih es (tf ++ [dep]) tr u es' tf' tr' u' h1 h

/-- C5: with `force = true` and no source matching a declared dependency
`d`, the loop adds `d` to the helm batch even when `d`'s archive already
exists in `charts/`; and every successful `update_dependencies` call
invokes helm exactly as `helm_fetch_log` records: not at all when the
accumulated batch is empty, else once with the whole batch. -/
theorem force_adds_to_batch_single_fetch
    (fetch : Manifest → List Dep → List (String × CTree))
    (subchart_sources : List CTree) (fuel : Nat)
    (m : Manifest) (cs : Charts) (d : Dep)
    (hd : d ∈ m.dependencies)
    (hnone : subchart_sources.filter
      (fun c => str_startswith (compute_name d.name d.version) c.chartName) = []) :
    (∀ es tf tr u es' tf' tr' u',
        entryExists es (compute_name d.name d.version ++ ".tgz") = true →
        update_deps_loop (fun src => update_dependencies fetch subchart_sources true fuel src)
          subchart_sources true m.dependencies es tf tr u = .ok (es', tf', tr', u') →
        d ∈ tf') ∧
    (∀ b t log,
        update_dependencies fetch subchart_sources true (fuel + 1) (.mk m cs) =
          .ok (b, t, log) →
        ∃ es₀ es' tf' tr' u',
          startCharts m cs = .present es₀ ∧
          update_deps_loop (fun src => update_dependencies fetch subchart_sources true fuel src)
            subchart_sources true m.dependencies es₀ [] [] false = .ok (es', tf', tr', u') ∧
          log = helm_fetch_log tf') := by
  constructor
  · intro es tf tr u es' tf' tr' u' _ h
    exact update_deps_loop_force_adds _ subchart_sources d hnone m.dependencies es tf tr u
      es' tf' tr' u' hd h
  · intro b t log h
    rw [update_dependencies_succ] at h
    unfold update_body at h
    split at h
    · rename_i hsc
      rw [startCharts_missing m cs hsc] at hd
      cases hd
    · rename_i es₀ hsc
      split at h
      · cases h
      · rename_i es₁ toFetch toResolve ul hloop
        unfold update_finish at h
        split at h
        · simp only [Except.ok.injEq, Prod.mk.injEq] at h
          obtain ⟨-, -, hlog⟩ := h
          exact ⟨es₀, es₁, toFetch, toResolve, ul, hsc, hloop, hlog.symm⟩
        · split at h
          · cases h
          · simp only [Except.ok.injEq, Prod.mk.injEq] at h
            obtain ⟨-, -, hlog⟩ := h
            exact ⟨es₀, es₁, toFetch, toResolve, ul, hsc, hloop, hlog.symm⟩

/-- C5 witness: the chart declaring `x-1.0` with its archive already in
`charts/`, no sources, `force = true`: the dependency still lands in the
batch and the helm log is the single whole-batch call. -/
theorem force_adds_to_batch_single_fetch_witness :
    (entryExists esX (compute_name "x" "1.0" ++ ".tgz") = true ∧
      (⟨"x", "1.0"⟩ : Dep) ∈ ([⟨"x", "1.0"⟩] : List Dep)) ∧
    (∃ es₀ es' tf' tr' u',
        startCharts mX (.present esX) = .present es₀ ∧
        update_deps_loop (fun src => update_dependencies (fun _ _ => []) [] true 1 src)
          [] true mX.dependencies es₀ [] [] false = .ok (es', tf', tr', u') ∧
        ([[(⟨"x", "1.0"⟩ : Dep)]] : List (List Dep)) = helm_fetch_log tf') :=
  ⟨⟨rfl, (force_adds_to_batch_single_fetch (fun _ _ => []) [] 1 mX (.present esX)
        ⟨"x", "1.0"⟩ (List.Mem.head _) rfl).1
      esX [] [] false esX [⟨"x", "1.0"⟩] [] false rfl rfl⟩,
    (force_adds_to_batch_single_fetch (fun _ _ => []) [] 1 mX (.present esX)
        ⟨"x", "1.0"⟩ (List.Mem.head _) rfl).2
      false (.mk mX (.present esX)) [[⟨"x", "1.0"⟩]] rfl⟩

/-! ## C1: the second resolve call is not reported as a no-op -/

theorem update_deps_loop_all_archived
    (upd : CTree → Except Err (Bool × CTree × List (List Dep)))
    (subchart_sources : List CTree) (es : EntryList) :
    ∀ (deps : List Dep),
      (∀ dep ∈ deps,
        subchart_sources.filter
          (fun c => str_startswith (compute_name dep.name dep.version) c.chartName) = [] ∧
        ∃ ct, lookupArchive es (compute_name dep.name dep.version ++ ".tgz") = some ct ∧
          resolve_subcharts subchart_sources ct = .ok (false, ct)) →
      ∀ tf tr u,
        (∀ x ∈ tr, ∃ ct, lookupArchive es x = some ct ∧
          resolve_subcharts subchart_sources ct = .ok (false, ct)) →
        ∃ tr', update_deps_loop upd subchart_sources false deps es tf tr u =
            .ok (es, tf, tr', u) ∧
          (∀ x ∈ tr', ∃ ct, lookupArchive es x = some ct ∧
            resolve_subcharts subchart_sources ct = .ok (false, ct)) ∧
          (deps ≠ [] ∨ tr ≠ [] → tr' ≠ []) := by
  intro deps
  induction deps with
  | nil =>
      intro _ tf tr u htr
      refine ⟨tr, rfl, htr, fun h => ?_⟩
      rcases h with h | h
      · exact absurd rfl h
      · exact h
  | cons dep rest ih =>
      intro hdeps tf tr u htr
      obtain ⟨hfil, ct, hlook, hres⟩ := hdeps dep (List.Mem.head _)
      have hf := find_one_source_of_empty _ subchart_sources hfil
      have hex : entryExists es (compute_name dep.name dep.version ++ ".tgz") = true :=
        entryExists_of_lookup es _ _ hlook
      have htr2 : ∀ x ∈ insertName tr (compute_name dep.name dep.version ++ ".tgz"),
          ∃ ct2, lookupArchive es x = some ct2 ∧
            resolve_subcharts subchart_sources ct2 = .ok (false, ct2) := by
        intro x hx
        rcases mem_insertName hx with h1 | h1
        · exact htr x h1
        · subst h1; exact ⟨ct, hlook, hres⟩
      obtain ⟨tr', hloop, hP, hne⟩ := ih (fun dp hdp => hdeps dp (List.Mem.tail _ hdp))
        tf (insertName tr (compute_name dep.name dep.version ++ ".tgz")) u htr2
      refine ⟨tr', ?_, hP, fun _ => hne (Or.inr (insertName_ne_nil tr _))⟩
      simp only [update_deps_loop, hf, hex, if_false, Bool.false_eq_true, if_true]
      exact hloop

theorem resolve_archives_no_change (subchart_sources : List CTree) (es : EntryList) :
    ∀ names : List String,
      (∀ x ∈ names, ∃ ct, lookupArchive es x = some ct ∧
        resolve_subcharts subchart_sources ct = .ok (false, ct)) →
      resolve_archives subchart_sources names es = .ok es := by
  intro names
  induction names with
  | nil => intro; rfl
  | cons n rest ih =>
      intro h
      obtain ⟨ct, hl, hr⟩ := h n (List.Mem.head _)
      simp only [resolve_archives, hl, hr, if_false, Bool.false_eq_true]
      exact ih (fun x hx => h x (List.Mem.tail _ hx))

/-- C1 amended: with `force = false`, no source matching any dependency,
every dependency's archive already present, and the substituter reporting
no change inside any of those archives — exactly the state after a first
successful resolve with the same inputs — a second `update_dependencies`
call leaves the `charts/` listing unchanged and performs no fetch, yet
returns `updated = true` (not `false`) whenever the chart declares at
least one dependency: line for line, the code sets `updated = True` as
soon as the re-check set is non-empty, even though nothing was touched
and no substitution fired. -/
theorem update_dependencies_second_call_updated
    (fetch : Manifest → List Dep → List (String × CTree))
    (subchart_sources : List CTree) (fuel : Nat) (m : Manifest) (es : EntryList)
    (hne : m.dependencies ≠ [])
    (hdeps : ∀ dep ∈ m.dependencies,
      subchart_sources.filter
        (fun c => str_startswith (compute_name dep.name dep.version) c.chartName) = [] ∧
      ∃ ct, lookupArchive es (compute_name dep.name dep.version ++ ".tgz") = some ct ∧
        resolve_subcharts subchart_sources ct = .ok (false, ct)) :
    update_dependencies fetch subchart_sources false (fuel + 1) (.mk m (.present es)) =
      .ok (true, .mk m (.present es), []) := by
  obtain ⟨tr', hloop, hP, hne'⟩ := update_deps_loop_all_archived
    (fun src => update_dependencies fetch subchart_sources false fuel src)
    subchart_sources es m.dependencies hdeps [] [] false (by simp)
  have htr' : tr' ≠ [] := hne' (Or.inl hne)
  have hstart : startCharts m (.present es) = .present es := by
    rw [startCharts_of_ne m _ hne]; rfl
  have harch : resolve_archives subchart_sources tr' es = .ok es :=
    resolve_archives_no_change subchart_sources es tr' hP
  rcases tr' with _ | ⟨a, l⟩
  · exact absurd rfl htr'
  · rw [update_dependencies_succ]
    unfold update_body
    simp only [hstart, hloop, update_finish, fetched_archives, helm_fetch_log, upsertAll]
    simp [dedupAppend_nil, harch]

/-- The chart `app-1` declaring `x-1.0`, with the archive `x-1.0.tgz`
already resolved in its `charts/` directory. -/
def cW1 : CTree := .mk mX (.present esX)

/-- C1 counterexample: resolving `cW1` with no sources and `force = false`
returns the state unchanged — so a second call is this very same call —
and reports `updated = true`, not the `false` the claim requires; the flag
is set merely because the re-check set `{x-1.0.tgz}` is non-empty, though
no archive is touched and no substitution fires. -/
theorem update_dependencies_not_idempotent_cex :
    update_dependencies (fun _ _ => []) [] false 2 cW1 = .ok (true, cW1, []) := rfl

/-- C1 witness: the amended claim instantiated at `cW1`. -/
theorem update_dependencies_second_call_updated_witness :
    update_dependencies (fun _ _ => []) [] false 1 (.mk mX (.present esX)) =
      .ok (true, .mk mX (.present esX), []) :=
  update_dependencies_second_call_updated (fun _ _ => []) [] 0 mX esX
    (by simp [mX])
    (by
      intro dep hdep
      simp only [mX] at hdep
      rw [List.mem_singleton] at hdep
      subst hdep
      exact ⟨rfl, ctX, rfl, rfl⟩)

/-- The manifest of the nested dependency chart `a-1.0`. -/
def mA8 : Manifest := ⟨"a", "1.0", []⟩

/-- The extracted archive of `a-1.0`, holding the directory-form subchart
`b-2-dev`. -/
def tA8 : CTree := .mk mA8 (.present (.cons (.dir "b" tBW) .nil))

/-- A `charts/` listing holding the archive `a-1.0.tgz` of `tA8`. -/
def esW8 : EntryList := .cons (.archive "a-1.0.tgz" tA8) .nil

/-- `tA8` after substituting the source `b-2` for its `b` subchart. -/
def newA8 : CTree := .mk mA8 (.present (.cons (.dir "b" sBW) .nil))

/-- The root manifest declaring the single dependency `a-1.0`. -/
def mW8 : Manifest := ⟨"app", "1", [⟨"a", "1.0"⟩]⟩

/-- C8 witness: one resolve call on the root chart, with the source `b-2`
supplied, rewrites the existing `a-1.0.tgz` archive so that it contains
the source's `b`. -/
theorem transitive_substitution_repackages_witness :
    update_dependencies (fun _ _ => []) [sBW] false 1 (.mk mW8 (.present esW8)) =
      .ok (true,
        .mk mW8 (.present (upsertArchive (removeEntry esW8 "a-1.0.tgz") "a-1.0.tgz" newA8)),
        []) ∧
    lookupArchive (upsertArchive (removeEntry esW8 "a-1.0.tgz") "a-1.0.tgz" newA8)
        "a-1.0.tgz" = some newA8 :=
  transitive_substitution_repackages (fun _ _ => []) [sBW] 0 mW8 mA8 esW8
    ⟨"a", "1.0"⟩ "b" tBW sBW rfl rfl rfl rfl rfl
